import Mathlib

/-!
Verification of the Hull-White short-rate model header
(`ql/ShortRateModels/OneFactorModels/hullwhite.hpp`).

The embedding is shallow, over the real numbers:
* the term structure is an externally supplied curve, modelled as the
  function `t ↦ forward t` it exposes (and, where error behaviour matters,
  as a function into `Except`);
* `HullWhiteImpl` is the closure state captured by
  `HullWhite::FittingParameter::HullWhiteImpl` (curve reference, `a`, `sigma`),
  and `HullWhiteImpl.value` is its `value(const Array& params, Time t)` body;
* `Dynamics` is `HullWhite::Dynamics`, holding the fitting parameter as the
  function it evaluates, with its two one-line member functions.
-/

open Filter Topology

namespace QuantLib

/-- Closure state of `HullWhite::FittingParameter::HullWhiteImpl`: the
captured term-structure handle (modelled by the forward-rate function it
serves), and the constants `a_` and `sigma_`. -/
structure HullWhiteImpl where
  termStructure : ℝ → ℝ
  a : ℝ
  sigma : ℝ

/-- Body of `HullWhiteImpl::value(const Array& params, Time t)`:
`forwardRate = termStructure_->forward(t)`,
`temp = sigma_*(1.0 - QL_EXP(-a_*t))/a_`,
`return forwardRate + 0.5*temp*temp`. -/
noncomputable def HullWhiteImpl.value (impl : HullWhiteImpl)
    (params : List ℝ) (t : ℝ) : ℝ :=
  let forwardRate := impl.termStructure t
  let temp := impl.sigma * (1 - Real.exp (-impl.a * t)) / impl.a
  forwardRate + 0.5 * temp * temp

/-- Effectful view of the term structure used to track curve queries:
`forward(t)` returns the rate and appends the queried time to the log. -/
def forwardQuery (ts : ℝ → ℝ) (t : ℝ) (log : List ℝ) : ℝ × List ℝ :=
  (ts t, log ++ [t])

/-- Body of `FittingParameter(termStructure, a, sigma)` (and of the
`generateParameters` rebuild): it only stores the curve handle and the two
constants in a fresh `HullWhiteImpl`; the query log records any term-structure
query it would perform. -/
def FittingParameter.construct (ts : ℝ → ℝ) (a sigma : ℝ)
    (log : List ℝ) : HullWhiteImpl × List ℝ :=
  (⟨ts, a, sigma⟩, log)

/-- Body of `HullWhiteImpl::value` with the term-structure query tracked:
the single call `termStructure_->forward(t)` goes through `forwardQuery`. -/
noncomputable def HullWhiteImpl.valueQ (impl : HullWhiteImpl)
    (params : List ℝ) (t : ℝ) (log : List ℝ) : ℝ × List ℝ :=
  let fr := forwardQuery impl.termStructure t log
  let temp := impl.sigma * (1 - Real.exp (-impl.a * t)) / impl.a
  (fr.1 + 0.5 * temp * temp, fr.2)

/-- Body of `HullWhiteImpl::value` with the term structure modelled as a
fallible query `forward : ℝ → Except ε ℝ` (out-of-domain lookups fail):
the forward query is the first statement of the body, and the remainder of
the body is pure arithmetic. -/
noncomputable def HullWhiteImpl.valueE {ε : Type} (forward : ℝ → Except ε ℝ)
    (a sigma : ℝ) (params : List ℝ) (t : ℝ) : Except ε ℝ := do
  let forwardRate ← forward t
  let temp := sigma * (1 - Real.exp (-a * t)) / a
  return forwardRate + 0.5 * temp * temp

/-- State of `HullWhite::Dynamics`: the fitting parameter `fitting_`
it was constructed with, modelled by the function `t ↦ fitting_(t)`. -/
structure Dynamics where
  fitting : ℝ → ℝ

/-- Body of `Dynamics::variable(Time t, Rate r)`: `return r - fitting_(t)`.
(`variable` is a keyword in Lean, hence the prime.) -/
def Dynamics.variable' (d : Dynamics) (t r : ℝ) : ℝ :=
  r - d.fitting t

/-- Body of `Dynamics::shortRate(Time t, double x)`: `return x + fitting_(t)`. -/
def Dynamics.shortRate (d : Dynamics) (t x : ℝ) : ℝ :=
  x + d.fitting t

/-- Modelled from the spec: the body of `HullWhite::B` is not under `src/`
(the header only declares the bond-price helpers; `A` at line 59, `B` is
inherited machinery). Per the spec, `B(t,T) = (1 − e^(−a(T−t)))/a`. -/
noncomputable def HullWhite.B (a t T : ℝ) : ℝ :=
  (1 - Real.exp (-(a * (T - t)))) / a

/-- Modelled from the spec: the body of `HullWhite::A(Time t, Time T)` is
not under `src/` (only its declaration at `hullwhite.hpp` line 59). Per the
spec, `A(t,T)` is the ratio of the curve's discount factors at `T` and `t`,
corrected by the model's variance term through the `B` coefficients so that
`P(t,T) = A(t,T)·exp(−B(t,T)·x_t)` reproduces the market discount factors:
`A(t,T) = exp(B(t,T)·f(t) − ¼·(σ·B(t,T))²·B(0,2t)) · discount(T)/discount(t)`. -/
noncomputable def HullWhite.A (discount forward : ℝ → ℝ)
    (a sigma t T : ℝ) : ℝ :=
  Real.exp (HullWhite.B a t T * forward t -
      0.25 * (sigma * HullWhite.B a t T) ^ 2 * HullWhite.B a 0 (2 * t)) *
    discount T / discount t

end QuantLib

namespace QuantLib

/-- Claim C1: for every time `t ≥ 0`, the fitting parameter evaluates to
`φ(t) = f(t) + 0.5*[σ(1−e^(−a·t))/a]²`, where `f(t)` is the forward rate
returned by the captured term structure. -/
theorem fittingParameter_value_formula (impl : HullWhiteImpl)
    (params : List ℝ) (t : ℝ) (h : 0 ≤ t) :
    impl.value params t =
      impl.termStructure t +
        0.5 * (impl.sigma * (1 - Real.exp (-impl.a * t)) / impl.a) ^ 2 := by
  unfold HullWhiteImpl.value
  ring

/-- Witness for C1 at the spec's concrete scenario: flat 5% curve,
`a = 0.1`, `σ = 0.01`, `t = 1`. -/
theorem fittingParameter_value_formula_witness :
    (0 : ℝ) ≤ 1 ∧
      HullWhiteImpl.value ⟨fun _ => 0.05, 0.1, 0.01⟩ [] 1 =
        0.05 + 0.5 * (0.01 * (1 - Real.exp (-(0.1 : ℝ) * 1)) / 0.1) ^ 2 :=
  ⟨by norm_num,
    fittingParameter_value_formula ⟨fun _ => 0.05, 0.1, 0.01⟩ [] 1 (by norm_num)⟩

/-- Claim C2: for every `t`, `r` and `x`, a `Dynamics` object holding the
fitting parameter `φ` satisfies `variable(t, r) = r − φ(t)` and
`shortRate(t, x) = x + φ(t)`. -/
theorem dynamics_transform_contract (φ : ℝ → ℝ) (t r x : ℝ) :
    (Dynamics.mk φ).variable' t r = r - φ t ∧
      (Dynamics.mk φ).shortRate t x = x + φ t :=
  ⟨rfl, rfl⟩

/-- Claim C3: for every `t ≥ 0` and reals `r`, `x`, and the same fitting
parameter instance, `variable` and `shortRate` are mutual inverses:
`variable(t, shortRate(t, x)) = x` and `shortRate(t, variable(t, r)) = r`. -/
theorem dynamics_mutual_inverse (d : Dynamics) (t r x : ℝ) (h : 0 ≤ t) :
    d.variable' t (d.shortRate t x) = x ∧
      d.shortRate t (d.variable' t r) = r := by
  constructor <;> simp [Dynamics.variable', Dynamics.shortRate]

/-- Witness for C3 with the constant-zero fitting parameter at `t = 1`,
`r = 2`, `x = 3`. -/
theorem dynamics_mutual_inverse_witness :
    (0 : ℝ) ≤ 1 ∧
      ((Dynamics.mk fun _ => 0).variable' 1 ((Dynamics.mk fun _ => 0).shortRate 1 3) = 3 ∧
        (Dynamics.mk fun _ => 0).shortRate 1 ((Dynamics.mk fun _ => 0).variable' 1 2) = 2) :=
  ⟨by norm_num, dynamics_mutual_inverse (Dynamics.mk fun _ => 0) 1 2 3 (by norm_num)⟩

/-- Counterexample for C4: the code does not replace the bracket
`sigma*(1-e^(-a*t))/a` by its continuous limit `σ·t` as `a → 0`: at `a = 0`
(flat zero curve, `σ = 1`, `t = 1`) the bracket `1·(1−e⁰)/0` collapses to `0`
instead of `σ·t = 1`, so the evaluated value is `0`, not the limiting value
`0 + 0.5·(σ·t)² = 0.5` the claim requires. -/
theorem fitting_limit_branch_cex :
    HullWhiteImpl.value ⟨fun _ => 0, 0, 1⟩ [] 1 ≠
      (0 : ℝ) + 0.5 * ((1 : ℝ) * 1) ^ 2 := by
  unfold HullWhiteImpl.value
  norm_num

/-- Claim C4 as amended: the body of `HullWhiteImpl::value` computes the
bracket by literal division by `a` with no limiting-case branch: for any
`a ≠ 0` the evaluation is the well-defined closed formula, while at `a = 0`
the division has a zero divisor and the bracket collapses (to `0` in the
embedding, where `x/0 = 0`), so the value degenerates to the bare forward
rate instead of the continuous limit. -/
theorem fitting_unguarded_division (impl : HullWhiteImpl)
    (params : List ℝ) (t : ℝ) (ha : impl.a ≠ 0) :
    impl.value params t =
      impl.termStructure t +
        0.5 * (impl.sigma * (1 - Real.exp (-impl.a * t)) / impl.a) ^ 2 ∧
      ∀ f σ : ℝ, HullWhiteImpl.value ⟨fun _ => f, 0, σ⟩ params t = f := by
  refine ⟨by unfold HullWhiteImpl.value; ring, fun f σ => ?_⟩
  unfold HullWhiteImpl.value
  norm_num

/-- Witness for the amended C4 at `a = 0.1`, `σ = 0.01`, `t = 1`, flat 5%
curve (second conjunct instantiated with a flat 3% curve). -/
theorem fitting_unguarded_division_witness :
    (0.1 : ℝ) ≠ 0 ∧
      (HullWhiteImpl.value ⟨fun _ => 0.05, 0.1, 0.01⟩ [] 1 =
          0.05 + 0.5 * (0.01 * (1 - Real.exp (-(0.1 : ℝ) * 1)) / 0.1) ^ 2 ∧
        ∀ f σ : ℝ, HullWhiteImpl.value ⟨fun _ => f, 0, σ⟩ [] 1 = f) :=
  ⟨by norm_num,
    fitting_unguarded_division ⟨fun _ => 0.05, 0.1, 0.01⟩ [] 1 (by norm_num)⟩

/-- Claim C5: for fixed time `t`, volatility `σ`, and curve (so `f(t)` is
held fixed), the fitting-parameter value tends to `f(t) + ½(σt)²` as the
mean-reversion speed `a` tends to `0` from above. -/
theorem phi_tendsto_small_a (f : ℝ → ℝ) (sigma t : ℝ) (params : List ℝ) :
    Tendsto (fun a : ℝ => HullWhiteImpl.value ⟨f, a, sigma⟩ params t)
      (𝓝[>] (0 : ℝ)) (𝓝 (f t + 0.5 * (sigma * t) ^ 2)) := by
  have hderiv : HasDerivAt (fun a : ℝ => Real.exp (-a * t)) (-t) 0 := by
    have h1 : HasDerivAt (fun a : ℝ => -a * t) (-t) 0 := by
      simpa using (hasDerivAt_id (0 : ℝ)).neg.mul_const t
    simpa using h1.exp
  have hbr : Tendsto (fun a : ℝ => (1 - Real.exp (-a * t)) / a)
      (𝓝[≠] (0 : ℝ)) (𝓝 t) := by
    have hslope := (hasDerivAt_iff_tendsto_slope.mp hderiv).neg
    rw [neg_neg] at hslope
    refine hslope.congr fun a => ?_
    rw [slope_def_field]
    simp only [neg_zero, zero_mul, Real.exp_zero, sub_zero]
    rw [← neg_div, neg_sub]
  have hbr2 : Tendsto (fun a : ℝ => (1 - Real.exp (-a * t)) / a)
      (𝓝[>] (0 : ℝ)) (𝓝 t) :=
    hbr.mono_left
      (nhdsWithin_mono 0 fun x hx => Set.mem_compl_singleton_iff.mpr (ne_of_gt hx))
  have hs : Tendsto (fun a : ℝ => sigma * ((1 - Real.exp (-a * t)) / a))
      (𝓝[>] (0 : ℝ)) (𝓝 (sigma * t)) := hbr2.const_mul sigma
  have hval : Tendsto (fun a : ℝ =>
      f t + 0.5 * (sigma * ((1 - Real.exp (-a * t)) / a)) *
        (sigma * ((1 - Real.exp (-a * t)) / a)))
      (𝓝[>] (0 : ℝ)) (𝓝 (f t + 0.5 * (sigma * t) * (sigma * t))) :=
    tendsto_const_nhds.add ((hs.const_mul 0.5).mul hs)
  have hg : f t + 0.5 * (sigma * t) ^ 2 =
      f t + 0.5 * (sigma * t) * (sigma * t) := by ring
  rw [hg]
  refine hval.congr fun a => ?_
  unfold HullWhiteImpl.value
  ring

/-- Claim C6: constructing a `FittingParameter` performs no term-structure
query (the log is unchanged); each evaluation at a time `t` performs exactly
one forward query at `t`; two evaluations at the same `t` query the curve
twice (no caching); and the tracked evaluation returns the same number as
the untracked one. -/
theorem fitting_lazy_lookup (ts : ℝ → ℝ) (a sigma : ℝ)
    (params : List ℝ) (t : ℝ) (log : List ℝ) :
    (FittingParameter.construct ts a sigma log).2 = log ∧
      ((FittingParameter.construct ts a sigma log).1.valueQ params t log).2 =
        log ++ [t] ∧
      ((FittingParameter.construct ts a sigma log).1.valueQ params t
          ((FittingParameter.construct ts a sigma log).1.valueQ params t log).2).2 =
        log ++ [t] ++ [t] ∧
      ((FittingParameter.construct ts a sigma log).1.valueQ params t log).1 =
        (FittingParameter.construct ts a sigma log).1.value params t :=
  ⟨rfl, rfl, rfl, rfl⟩

/-- Claim C7: evaluating the fitting parameter fails exactly when the
term structure's forward query at `t` fails, the curve's error is then
propagated unchanged, and a successful forward query always yields a
successful evaluation (no other failure source). -/
theorem valueE_error_passthrough {ε : Type} (forward : ℝ → Except ε ℝ)
    (a sigma : ℝ) (params : List ℝ) (t : ℝ) :
    (∀ e : ε, HullWhiteImpl.valueE forward a sigma params t = .error e ↔
        forward t = .error e) ∧
      ∀ fr : ℝ, forward t = .ok fr →
        HullWhiteImpl.valueE forward a sigma params t =
          .ok (fr + 0.5 * (sigma * (1 - Real.exp (-a * t)) / a) *
            (sigma * (1 - Real.exp (-a * t)) / a)) := by
  unfold HullWhiteImpl.valueE
  cases hf : forward t with
  | error e => exact ⟨fun _ => by simp [hf, Except.bind], fun _ h => by simp [hf] at h⟩
  | ok fr =>
      refine ⟨fun e => ?_, fun fr2 h => ?_⟩
      · simp [hf, Except.bind]
      · cases h
        simp [hf, Except.bind]

/-- Witness for C7: an always-failing curve propagates its error `7`
unchanged; an always-succeeding flat 5% curve yields the formula value. -/
theorem valueE_error_passthrough_witness :
    (HullWhiteImpl.valueE (fun _ => Except.error 7) 0.1 0.01 [] 1 =
        Except.error (7 : ℕ)) ∧
      HullWhiteImpl.valueE (ε := ℕ) (fun _ => Except.ok 0.05) 0.1 0.01 [] 1 =
        Except.ok (0.05 + 0.5 * (0.01 * (1 - Real.exp (-(0.1 : ℝ) * 1)) / 0.1) *
          (0.01 * (1 - Real.exp (-(0.1 : ℝ) * 1)) / 0.1)) :=
  ⟨((valueE_error_passthrough (fun _ => Except.error 7) 0.1 0.01 [] 1).1 7).mpr rfl,
    (valueE_error_passthrough (fun _ => Except.ok 0.05) 0.1 0.01 [] 1).2 0.05 rfl⟩

/-- Claim C8: for every `t` in the curve's domain (where the discount
factor is nonzero), the degenerate zero-maturity bond satisfies
`A(t,t) = 1` and `B(t,t) = 0`. -/
theorem bond_A_degenerate (discount forward : ℝ → ℝ) (a sigma t : ℝ)
    (h : discount t ≠ 0) :
    HullWhite.A discount forward a sigma t t = 1 ∧ HullWhite.B a t t = 0 := by
  have hB : HullWhite.B a t t = 0 := by
    unfold HullWhite.B
    simp
  refine ⟨?_, hB⟩
  unfold HullWhite.A
  rw [hB]
  simp [div_self h]

/-- Witness for C8 with the constant-one discount curve and a flat 5%
forward curve at `t = 1`, `a = 0.1`, `σ = 0.01`. -/
theorem bond_A_degenerate_witness :
    ((fun _ : ℝ => (1 : ℝ)) 1 ≠ 0) ∧
      (HullWhite.A (fun _ => 1) (fun _ => 0.05) 0.1 0.01 1 1 = 1 ∧
        HullWhite.B 0.1 1 1 = 0) :=
  ⟨by norm_num,
    bond_A_degenerate (fun _ => 1) (fun _ => 0.05) 0.1 0.01 1 (by norm_num)⟩

/-- Claim C9: `HullWhiteImpl::value` never reads its `params` argument, so
the result is the same for any two parameter arrays: it depends only on the
captured closure state and `t`. -/
theorem value_params_independent (impl : HullWhiteImpl)
    (p1 p2 : List ℝ) (t : ℝ) :
    impl.value p1 t = impl.value p2 t :=
  rfl

/-- Claim C10: the convexity adjustment is never negative: for every
`t ≥ 0`, any `σ`, and any `a ≠ 0`, the fitting-parameter value is at least
the curve's forward rate at `t`, and at `t = 0` the adjustment vanishes so
the value equals the forward rate exactly. -/
theorem convexity_adjustment_nonneg (impl : HullWhiteImpl)
    (params : List ℝ) (t : ℝ) (h : 0 ≤ t) (ha : impl.a ≠ 0) :
    impl.termStructure t ≤ impl.value params t ∧
      impl.value params 0 = impl.termStructure 0 := by
  constructor
  · unfold HullWhiteImpl.value
    have hsq := mul_self_nonneg (impl.sigma * (1 - Real.exp (-impl.a * t)) / impl.a)
    nlinarith
  · unfold HullWhiteImpl.value
    simp

/-- Witness for C10 at the spec's concrete scenario: flat 5% curve,
`a = 0.1`, `σ = 0.01`, `t = 1`. -/
theorem convexity_adjustment_nonneg_witness :
    ((0 : ℝ) ≤ 1 ∧ (0.1 : ℝ) ≠ 0) ∧
      ((fun _ : ℝ => (0.05 : ℝ)) 1 ≤
          HullWhiteImpl.value ⟨fun _ => 0.05, 0.1, 0.01⟩ [] 1 ∧
        HullWhiteImpl.value ⟨fun _ => 0.05, 0.1, 0.01⟩ [] 0 =
          (fun _ : ℝ => (0.05 : ℝ)) 0) :=
  ⟨⟨by norm_num, by norm_num⟩,
    convexity_adjustment_nonneg ⟨fun _ => 0.05, 0.1, 0.01⟩ [] 1
      (by norm_num) (by norm_num)⟩

end QuantLib
